import Mathlib

/-!
Shallow embedding of the two source files of this repository:
`examples/carousel_adv.py` (the scrolling-position generators) and
`examples/hotspot/ups_battery.py` (the UPS battery telemetry reader,
time formatter and charging classification).

Conventions of the embedding:
- Python generators over integers become Lean functions on lists (for the
  finite-transducer `pause_every`) or on a stream index (for the infinite
  back-and-forth `position` sequence).
- Wall-clock time (`time.time()`) is a rational parameter `now`; the float
  literal `1.5` becomes the rational `3 / 2`.
- The process-global mutable cache (`_ups_cache`, `_ups_cache_time`) becomes
  an explicit `UpsState` threaded through `read_ups_data`.
- The I2C bus is an oracle parameter: `some regs` means every
  `bus.read_byte_data(DEVICE_ADDR, i)` in the transaction returns `regs i`;
  `none` means some step of the transaction raises an exception (the
  `except` branch of the source is taken).  The `busAttempted` field of the
  result records whether the call entered the `try` block, i.e. attempted a
  bus transaction.
-/

namespace CarouselAdv

/-- Run-length encoding of a list: `runs l` lists the maximal blocks of equal
adjacent elements of `l` as `(value, block length)` pairs, in order.  This is
an observer used to state the dwell property of `pause_every`; `runsAux`
prepends one element to an encoding. -/
def runsAux (x : Nat) : List (Nat × Nat) → List (Nat × Nat)
  | [] => [(x, 1)]
  | (y, n) :: rest => if x = y then (x, n + 1) :: rest else (x, 1) :: (y, n) :: rest

/-- Run-length encoding of a list (see `runsAux`). -/
def runs : List Nat → List (Nat × Nat)
  | [] => []
  | x :: xs => runsAux x (runs xs)

/-- Embedding of `pause_every(interval, generator)` from
`examples/carousel_adv.py` (lines 44-54), as a list transducer: for each
element `x` drawn from the input, if `x % interval == 0` it yields `x`
twenty times (`for _ in range(20): yield x`), otherwise it yields `x` once.
The `StopIteration` handler corresponds to the end of the input list. -/
def pause_every (interval : Nat) : List Nat → List Nat
  | [] => []
  | x :: xs =>
      (if x % interval = 0 then List.replicate 20 x else [x]) ++ pause_every interval xs

/-- Embedding of `forwards = range(0, max, step)` from `position` in
`examples/carousel_adv.py` (line 35): the `(max + step - 1) / step` values
`0, step, 2*step, ...` that are below `max`. -/
def forwards (m step : Nat) : List Nat :=
  (List.range ((m + step - 1) / step)).map (fun k => k * step)

/-- Embedding of `backwards = range(max, 0, -step)` from `position` in
`examples/carousel_adv.py` (line 36): the `(max + step - 1) / step` values
`max, max - step, ...` that are above `0`. -/
def backwards (m step : Nat) : List Nat :=
  (List.range ((m + step - 1) / step)).map (fun k => m - k * step)

/-- One full sweep of the `position` generator: the forward pass followed by
the backward pass. -/
def cycle (m step : Nat) : List Nat :=
  forwards m step ++ backwards m step

/-- Embedding of the infinite generator `position(max, step)` from
`examples/carousel_adv.py` (lines 34-41) as the stream it produces: the
`while True` loop repeats `cycle m step` forever, so the `n`-th emitted
value is the `n % length`-th element of the cycle.  (For `m > 0` the cycle
is nonempty, which is the only case the claims concern.) -/
def position (m step : Nat) (n : Nat) : Nat :=
  (cycle m step).getD (n % (cycle m step).length) 0

end CarouselAdv

namespace UpsBattery

/-- I2C bus index used by the reader (`DEVICE_BUS = 1`). -/
def DEVICE_BUS : Nat := 1

/-- 7-bit device address used by the reader (`DEVICE_ADDR = 0x17`). -/
def DEVICE_ADDR : Nat := 0x17

/-- The decoded telemetry record built by `read_ups_data` in
`examples/hotspot/ups_battery.py` (lines 72-89): the six fields of the
Python dict, in the same register layout. -/
structure UpsData where
  capacity_pct : Nat
  online_time : Nat
  full_time : Nat
  bat_voltage : Nat
  charge_typec : Nat
  charge_micro : Nat
  deriving DecidableEq

/-- Cache time-to-live: `_cache_validity = 1.5` seconds. -/
def cacheValidity : ℚ := 3 / 2

/-- Embedding of the inner helper `read_register_range(start, end)` of
`read_ups_data` (lines 54-59): the bytes returned by
`bus.read_byte_data(DEVICE_ADDR, i)` for `i in range(start, end + 1)`,
where `regs` is the oracle for a successful transaction. -/
def read_register_range (regs : Nat → Nat) (start stop : Nat) : List Nat :=
  (List.range (stop + 1 - start)).map (fun i => regs (start + i))

/-- Embedding of the register decode of `read_ups_data` (lines 62-89): read
the six register ranges and assemble the fields with the same shifts and
bitwise-or expressions as the source (`capacity[1] << 8 | capacity[0]`,
etc.; Python `<<` binds tighter than `|` and `|` is left-associative,
matching Lean `<<<` and `|||`). -/
def decode_ups (regs : Nat → Nat) : UpsData :=
  let bat_voltage := read_register_range regs 5 6
  let charge_typec := read_register_range regs 7 8
  let charge_micro := read_register_range regs 9 10
  let capacity := read_register_range regs 19 20
  let online_time := read_register_range regs 28 31
  let full_time := read_register_range regs 32 35
  { capacity_pct := capacity.getD 1 0 <<< 8 ||| capacity.getD 0 0,
    online_time := online_time.getD 3 0 <<< 24 ||| online_time.getD 2 0 <<< 16 |||
      online_time.getD 1 0 <<< 8 ||| online_time.getD 0 0,
    full_time := full_time.getD 3 0 <<< 24 ||| full_time.getD 2 0 <<< 16 |||
      full_time.getD 1 0 <<< 8 ||| full_time.getD 0 0,
    bat_voltage := bat_voltage.getD 1 0 <<< 8 ||| bat_voltage.getD 0 0,
    charge_typec := charge_typec.getD 1 0 <<< 8 ||| charge_typec.getD 0 0,
    charge_micro := charge_micro.getD 1 0 <<< 8 ||| charge_micro.getD 0 0 }

/-- The process-global mutable state of the reader: `_ups_cache` and
`_ups_cache_time`. -/
structure UpsState where
  cache : Option UpsData
  cacheTime : ℚ
  deriving DecidableEq

/-- The state at module load: `_ups_cache = None`, `_ups_cache_time = 0`. -/
def initState : UpsState :=
  { cache := none, cacheTime := 0 }

/-- Result of one call to `read_ups_data`: the returned value, the state the
globals are left in, and whether the call entered the `try` block (attempted
a bus transaction). -/
structure ReadResult where
  value : Option UpsData
  state : UpsState
  busAttempted : Bool
  deriving DecidableEq

/-- Embedding of `read_ups_data()` (lines 33-99).  In source order:
return the cache if `_ups_cache is not None` and
`(current_time - _ups_cache_time) < _cache_validity`; return `None` if
`not SMBUS_AVAILABLE`; otherwise attempt the transaction — on an exception
(`bus = none`) return `_ups_cache` unchanged, on success decode, update
both globals and return the fresh record. -/
def read_ups_data (smbusAvailable : Bool) (now : ℚ) (bus : Option (Nat → Nat))
    (st : UpsState) : ReadResult :=
  if st.cache.isSome = true ∧ now - st.cacheTime < cacheValidity then
    { value := st.cache, state := st, busAttempted := false }
  else if smbusAvailable = false then
    { value := none, state := st, busAttempted := false }
  else
    match bus with
    | none => { value := st.cache, state := st, busAttempted := true }
    | some regs =>
        let data := decode_ups regs
        { value := some data,
          state := { cache := some data, cacheTime := now },
          busAttempted := true }

/-- A sequence of calls to `read_ups_data`, threading the global state:
each list element is the wall-clock time of the call and its bus oracle. -/
def runReads (smbusAvailable : Bool) :
    List (ℚ × Option (Nat → Nat)) → UpsState → List ReadResult
  | [], _ => []
  | c :: rest, st =>
      let r := read_ups_data smbusAvailable c.1 c.2 st
      r :: runReads smbusAvailable rest r.state

/-- Embedding of `format_time(seconds)` (lines 102-112) for the non-negative
inputs the contract covers: branch on `seconds < 60`, then `seconds < 3600`,
using Python floor division (`//` is `/` on `Nat`). -/
def format_time (seconds : Nat) : String :=
  if seconds < 60 then toString seconds ++ "s"
  else if seconds < 3600 then toString (seconds / 60) ++ "m"
  else toString (seconds / 3600) ++ "h " ++ toString (seconds % 3600 / 60) ++ "m"

/-- Embedding of the charging classification computed by `render` (line 130):
`is_charging = data["charge_typec"] > 4000 or data["charge_micro"] > 4000`. -/
def is_charging (data : UpsData) : Bool :=
  data.charge_typec > 4000 || data.charge_micro > 4000

/-- The status text `render` draws (lines 143-154): `"Charging"` when
`is_charging`, else `"On Batt"`. -/
def render_status (data : UpsData) : String :=
  if is_charging data then "Charging" else "On Batt"

/-- A concrete telemetry record used to instantiate theorems with
hypotheses on concrete inputs. -/
def sampleData : UpsData :=
  { capacity_pct := 100, online_time := 0, full_time := 0,
    bat_voltage := 4000, charge_typec := 0, charge_micro := 0 }

/-- A record with Type-C charging voltage 4500 mV and micro-USB 0 mV. -/
def typecRecord : UpsData :=
  { capacity_pct := 0, online_time := 0, full_time := 0,
    bat_voltage := 0, charge_typec := 4500, charge_micro := 0 }

/-- A record with both charging voltages at 0 mV. -/
def idleRecord : UpsData :=
  { capacity_pct := 0, online_time := 0, full_time := 0,
    bat_voltage := 0, charge_typec := 0, charge_micro := 0 }

end UpsBattery

namespace CarouselAdv

theorem runsAux_shape (x : Nat) (l : List (Nat × Nat)) :
    ∃ n rest, runsAux x l = (x, n) :: rest := by
  match l with
  | [] => exact ⟨1, [], rfl⟩
  | (y, n) :: r =>
    by_cases hxy : x = y
    · exact ⟨n + 1, r, by simp [runsAux, hxy]⟩
    · exact ⟨1, (y, n) :: r, by simp [runsAux, hxy]⟩

theorem runs_head (l : List Nat) (y : Nat) (n : Nat) (rest : List (Nat × Nat))
    (h : runs l = (y, n) :: rest) : l.head? = some y := by
  match l with
  | [] => simp [runs] at h
  | z :: t =>
    obtain ⟨m, r, hs⟩ := runsAux_shape z (runs t)
    rw [show runs (z :: t) = runsAux z (runs t) from rfl, hs] at h
    injection h with h1 _
    injection h1 with h2 _
    simp [h2]

theorem runs_replicate_append (k x : Nat) (l : List Nat) (hk : 1 ≤ k)
    (hl : ∀ y ∈ l.head?, x ≠ y) :
    runs (List.replicate k x ++ l) = (x, k) :: runs l := by
  induction k with
  | zero => omega
  | succ k ih =>
    rcases Nat.eq_zero_or_pos k with hk0 | hkpos
    · subst hk0
      rw [show List.replicate 1 x ++ l = x :: l from rfl]
      show runsAux x (runs l) = (x, 1) :: runs l
      cases hr : runs l with
      | nil => simp [runsAux]
      | cons p r =>
        obtain ⟨y, n⟩ := p
        have hy := runs_head l y n r hr
        have hxy : x ≠ y := hl y (by simp [hy])
        simp [runsAux, hxy]
    · have hstep : List.replicate (k + 1) x ++ l = x :: (List.replicate k x ++ l) := by
        simp [List.replicate_succ]
      rw [hstep]
      show runsAux x (runs (List.replicate k x ++ l)) = (x, k + 1) :: runs l
      rw [ih hkpos]
      simp [runsAux]

theorem pause_every_head (interval x : Nat) (xs : List Nat) :
    (pause_every interval (x :: xs)).head? = some x := by
  show ((if x % interval = 0 then List.replicate 20 x else [x]) ++
      pause_every interval xs).head? = some x
  by_cases h : x % interval = 0 <;> simp [h, List.replicate_succ]

/-- C1 (counterexample): feeding `pause_every` the single position `4` with
interval `4` (an exact multiple) emits exactly 20 copies of it, not 21 — the
loop `for _ in range(20): yield x` replaces, rather than augments, the single
emission. -/
theorem pause_every_twenty_not_twentyone :
    pause_every 4 [4] = List.replicate 20 4 ∧ (pause_every 4 [4]).length ≠ 21 := by
  decide

/-- C1 (amended): whenever the underlying generator emits a position `x`
that is an exact multiple of the interval, `pause_every` emits `x`
19 additional times beyond the original, i.e. 20 emissions of `x` in
total, before advancing to the rest of the sequence. -/
theorem pause_every_multiple_dwells_twenty (interval x : Nat) (xs : List Nat)
    (hi : 1 ≤ interval) (hx : x % interval = 0) :
    pause_every interval (x :: xs) = List.replicate 20 x ++ pause_every interval xs := by
  show (if x % interval = 0 then List.replicate 20 x else [x]) ++
      pause_every interval xs = _
  rw [if_pos hx]

theorem pause_every_multiple_dwells_twenty_witness :
    1 ≤ 4 ∧ 4 % 4 = 0 ∧
    pause_every 4 [4, 5] = List.replicate 20 4 ++ pause_every 4 [5] :=
  ⟨by decide, by decide, pause_every_multiple_dwells_twenty 4 4 [5] (by decide) (by decide)⟩

/-- C2: on any input with no two equal adjacent elements, the run-length
encoding of the output of `pause_every` pairs each input position with block
length 20 when it is an exact multiple of the interval and block length 1
otherwise, in input order — i.e. multiples are emitted as exactly 20
consecutive copies and every other position exactly once, unchanged. -/
theorem pause_every_runs_spec (interval : Nat) (xs : List Nat)
    (hi : 1 ≤ interval) (hadj : List.Chain' (fun a b => a ≠ b) xs) :
    runs (pause_every interval xs)
      = xs.map (fun x => (x, if x % interval = 0 then 20 else 1)) := by
  induction xs with
  | nil => rfl
  | cons x t ih =>
    have h1 : ∀ y ∈ t.head?, x ≠ y := (List.chain'_cons'.mp hadj).1
    have h2 : List.Chain' (fun a b => a ≠ b) t := (List.chain'_cons'.mp hadj).2
    have hhead : ∀ y ∈ (pause_every interval t).head?, x ≠ y := by
      cases t with
      | nil => simp [pause_every]
      | cons z t' =>
        rw [pause_every_head interval z t']
        intro y hy
        have hyz : z = y := by simpa using hy
        subst hyz
        exact h1 z (by simp)
    show runs ((if x % interval = 0 then List.replicate 20 x else [x]) ++
        pause_every interval t) = _
    by_cases hx : x % interval = 0
    · rw [if_pos hx, runs_replicate_append 20 x _ (by omega) hhead, ih h2]
      simp [hx]
    · rw [if_neg hx, show ([x] : List Nat) = List.replicate 1 x from rfl,
        runs_replicate_append 1 x _ (by omega) hhead, ih h2]
      simp [hx]

theorem pause_every_runs_spec_witness :
    (1 ≤ 3 ∧ List.Chain' (fun a b => a ≠ b) [0, 1, 3]) ∧
    runs (pause_every 3 [0, 1, 3]) = [(0, 20), (1, 1), (3, 20)] := by
  refine ⟨⟨by decide, by norm_num [List.chain'_cons]⟩, ?_⟩
  rw [pause_every_runs_spec 3 [0, 1, 3] (by decide) (by norm_num [List.chain'_cons])]
  rfl

theorem cycle_mem_le (m s : Nat) (hs : 1 ≤ s) (hm : 0 < m) :
    ∀ x ∈ cycle m s, x ≤ m := by
  intro x hx
  rcases List.mem_append.mp hx with h | h
  · obtain ⟨k, hk, rfl⟩ := List.mem_map.mp h
    rw [List.mem_range] at hk
    have h1 : (k + 1) * s ≤ m + s - 1 :=
      (Nat.le_div_iff_mul_le (by omega)).mp (Nat.succ_le_of_lt hk)
    have h2 : k * s + s ≤ m + s - 1 := by
      calc k * s + s = (k + 1) * s := by ring
        _ ≤ m + s - 1 := h1
    omega
  · obtain ⟨k, hk, rfl⟩ := List.mem_map.mp h
    exact Nat.sub_le m (k * s)

theorem cycle_length (m s : Nat) :
    (cycle m s).length = 2 * ((m + s - 1) / s) := by
  simp [cycle, forwards, backwards]
  omega

theorem ceil_div_eq_div (m s : Nat) (hs : 0 < s) (hd : s ∣ m) (hm : 0 < m) :
    (m + s - 1) / s = m / s := by
  obtain ⟨q, rfl⟩ := hd
  have h1 : s * q + s - 1 = s - 1 + s * q := by omega
  rw [h1, Nat.add_mul_div_left _ _ hs, Nat.div_eq_of_lt (by omega),
    Nat.mul_div_cancel_left _ hs]
  omega

/-- C3: for every step size `s ≥ 1` and extent `m > 0`, every value of the
back-and-forth `position` sequence is at most `m` (and, being a natural
number, at least 0), and when `s` divides `m` the sequence is periodic with
period `2 * (m / s)`. -/
theorem position_bounded_and_periodic (m s : Nat) (hs : 1 ≤ s) (hm : 0 < m) :
    (∀ n, position m s n ≤ m) ∧
    (s ∣ m → ∀ n, position m s (n + 2 * (m / s)) = position m s n) := by
  constructor
  · intro n
    unfold position
    rcases h : (cycle m s)[n % (cycle m s).length]? with _ | x
    · simp [List.getD_eq_getElem?_getD, h]
    · have hx : x ∈ cycle m s := List.getElem?_mem h
      have hle := cycle_mem_le m s hs hm x hx
      simp [List.getD_eq_getElem?_getD, h, hle]
  · intro hd n
    unfold position
    have hlen : (cycle m s).length = 2 * (m / s) := by
      rw [cycle_length, ceil_div_eq_div m s (by omega) hd hm]
    rw [hlen, Nat.add_mod_right]

theorem position_bounded_and_periodic_witness :
    (1 ≤ 2 ∧ 0 < 4) ∧
    ((∀ n, position 4 2 n ≤ 4) ∧
      (2 ∣ 4 → ∀ n, position 4 2 (n + 2 * (4 / 2)) = position 4 2 n)) :=
  ⟨⟨by decide, by decide⟩, position_bounded_and_periodic 4 2 (by decide) (by decide)⟩

end CarouselAdv

namespace UpsBattery

theorem read_tx_fail (st : UpsState) (now : ℚ)
    (hmiss : ¬(st.cache.isSome = true ∧ now - st.cacheTime < cacheValidity)) :
    read_ups_data true now none st =
      { value := st.cache, state := st, busAttempted := true } := by
  unfold read_ups_data
  rw [if_neg hmiss, if_neg (by simp)]

/-- C4: with a populated cache, a call strictly inside the 1.5 second window
returns the cached record, leaves the state untouched and performs no bus
transaction; once 1.5 seconds or more have elapsed, a call (with the bus
driver importable, which is the only way the cache was populated) enters the
transaction. -/
theorem read_cache_policy (st : UpsState) (c : UpsData) (now : ℚ)
    (bus : Option (Nat → Nat)) (hc : st.cache = some c) :
    (now - st.cacheTime < 3 / 2 →
      read_ups_data true now bus st =
        { value := some c, state := st, busAttempted := false }) ∧
    (3 / 2 ≤ now - st.cacheTime →
      (read_ups_data true now bus st).busAttempted = true) := by
  constructor
  · intro hlt
    unfold read_ups_data
    rw [if_pos ⟨by simp [hc], by rw [show cacheValidity = 3 / 2 from rfl]; exact hlt⟩, hc]
  · intro hge
    unfold read_ups_data
    have hmiss : ¬(st.cache.isSome = true ∧ now - st.cacheTime < cacheValidity) := by
      rintro ⟨_, hlt⟩
      rw [show cacheValidity = 3 / 2 from rfl] at hlt
      linarith
    rw [if_neg hmiss, if_neg (by simp)]
    cases bus <;> rfl

theorem read_cache_policy_witness :
    ({ cache := some sampleData, cacheTime := 0 } : UpsState).cache = some sampleData ∧
    read_ups_data true 1 none { cache := some sampleData, cacheTime := 0 } =
      { value := some sampleData,
        state := { cache := some sampleData, cacheTime := 0 }, busAttempted := false } ∧
    (read_ups_data true 2 none { cache := some sampleData, cacheTime := 0 }).busAttempted
      = true :=
  ⟨rfl,
    (read_cache_policy _ sampleData 1 none rfl).1 (by norm_num),
    (read_cache_policy _ sampleData 2 none rfl).2 (by norm_num)⟩

/-- C5: when the bus transaction fails (any exception inside the `try`
block), `read_ups_data` propagates nothing: it returns exactly the previous
cached value — the cached record when one exists, `none` otherwise — and
leaves the state unchanged.  The hypothesis is the cache-miss condition
under which the transaction is attempted at all. -/
theorem read_failure_returns_cache (st : UpsState) (now : ℚ)
    (hmiss : ¬(st.cache.isSome = true ∧ now - st.cacheTime < cacheValidity)) :
    read_ups_data true now none st =
      { value := st.cache, state := st, busAttempted := true } :=
  read_tx_fail st now hmiss

theorem read_failure_returns_cache_witness :
    read_ups_data true 0 none initState =
      { value := none, state := initState, busAttempted := true } :=
  read_failure_returns_cache initState 0 (by simp [initState])

theorem read_no_smbus (now : ℚ) (bus : Option (Nat → Nat)) (st : UpsState)
    (h : st.cache = none) :
    read_ups_data false now bus st =
      { value := none, state := st, busAttempted := false } := by
  unfold read_ups_data
  rw [if_neg (by simp [h]), if_pos rfl]

theorem runReads_no_smbus (calls : List (ℚ × Option (Nat → Nat))) (st : UpsState)
    (h : st.cache = none) :
    ∀ r ∈ runReads false calls st, r.value = none ∧ r.busAttempted = false := by
  induction calls generalizing st with
  | nil => simp [runReads]
  | cons c rest ih =>
    intro r hr
    simp only [runReads] at hr
    rw [read_no_smbus c.1 c.2 st h] at hr
    rcases List.mem_cons.mp hr with rfl | hr2
    · exact ⟨rfl, rfl⟩
    · exact ih st h r hr2

/-- C6: if the bus driver `smbus2` is not importable
(`SMBUS_AVAILABLE = False`), every call in any sequence of calls starting
from the module-load state returns `none` and never attempts a bus
transaction (the cache can never become populated, so the early cache
return is unreachable). -/
theorem smbus_unavailable_always_none (calls : List (ℚ × Option (Nat → Nat))) :
    ∀ r ∈ runReads false calls initState, r.value = none ∧ r.busAttempted = false :=
  runReads_no_smbus calls initState rfl

theorem smbus_unavailable_always_none_witness :
    (read_ups_data false 0 none initState).value = none ∧
    (read_ups_data false 0 none initState).busAttempted = false :=
  smbus_unavailable_always_none [(0, none)] _ (by simp [runReads])

theorem two_byte_le (hi lo : Nat) (hlo : lo < 256) :
    hi <<< 8 ||| lo = hi * 256 + lo := by
  rw [Nat.shiftLeft_eq]
  have h := Nat.mul_add_lt_is_or (show lo < 2 ^ 8 by omega) hi
  calc hi * 2 ^ 8 ||| lo = 2 ^ 8 * hi ||| lo := by rw [Nat.mul_comm]
    _ = 2 ^ 8 * hi + lo := h.symm
    _ = hi * 256 + lo := by ring

theorem four_byte_le (b3 b2 b1 b0 : Nat)
    (h2 : b2 < 256) (h1 : b1 < 256) (h0 : b0 < 256) :
    b3 <<< 24 ||| b2 <<< 16 ||| b1 <<< 8 ||| b0
      = b3 * 2 ^ 24 + b2 * 2 ^ 16 + b1 * 2 ^ 8 + b0 := by
  have e1 : b3 <<< 24 ||| b2 <<< 16 = b3 * 2 ^ 24 + b2 * 2 ^ 16 := by
    rw [Nat.shiftLeft_eq, Nat.shiftLeft_eq]
    have hb : b2 * 2 ^ 16 < 2 ^ 24 := by
      calc b2 * 2 ^ 16 < 256 * 2 ^ 16 := by
            exact Nat.mul_lt_mul_of_lt_of_le h2 (le_refl _) (by norm_num)
        _ = 2 ^ 24 := by norm_num
    have h := Nat.mul_add_lt_is_or hb b3
    calc b3 * 2 ^ 24 ||| b2 * 2 ^ 16 = 2 ^ 24 * b3 ||| b2 * 2 ^ 16 := by rw [Nat.mul_comm]
      _ = 2 ^ 24 * b3 + b2 * 2 ^ 16 := h.symm
      _ = b3 * 2 ^ 24 + b2 * 2 ^ 16 := by ring
  have e2 : b3 * 2 ^ 24 + b2 * 2 ^ 16 ||| b1 <<< 8
      = b3 * 2 ^ 24 + b2 * 2 ^ 16 + b1 * 2 ^ 8 := by
    rw [Nat.shiftLeft_eq]
    have hb : b1 * 2 ^ 8 < 2 ^ 16 := by
      calc b1 * 2 ^ 8 < 256 * 2 ^ 8 := by
            exact Nat.mul_lt_mul_of_lt_of_le h1 (le_refl _) (by norm_num)
        _ = 2 ^ 16 := by norm_num
    have hfac : b3 * 2 ^ 24 + b2 * 2 ^ 16 = 2 ^ 16 * (b3 * 2 ^ 8 + b2) := by ring
    have h := Nat.mul_add_lt_is_or hb (b3 * 2 ^ 8 + b2)
    rw [hfac]
    calc 2 ^ 16 * (b3 * 2 ^ 8 + b2) ||| b1 * 2 ^ 8
        = 2 ^ 16 * (b3 * 2 ^ 8 + b2) + b1 * 2 ^ 8 := h.symm
      _ = 2 ^ 16 * (b3 * 2 ^ 8 + b2) + b1 * 2 ^ 8 := by ring
  have e3 : b3 * 2 ^ 24 + b2 * 2 ^ 16 + b1 * 2 ^ 8 ||| b0
      = b3 * 2 ^ 24 + b2 * 2 ^ 16 + b1 * 2 ^ 8 + b0 := by
    have hb : b0 < 2 ^ 8 := by omega
    have hfac : b3 * 2 ^ 24 + b2 * 2 ^ 16 + b1 * 2 ^ 8
        = 2 ^ 8 * (b3 * 2 ^ 16 + b2 * 2 ^ 8 + b1) := by ring
    have h := Nat.mul_add_lt_is_or hb (b3 * 2 ^ 16 + b2 * 2 ^ 8 + b1)
    rw [hfac]
    calc 2 ^ 8 * (b3 * 2 ^ 16 + b2 * 2 ^ 8 + b1) ||| b0
        = 2 ^ 8 * (b3 * 2 ^ 16 + b2 * 2 ^ 8 + b1) + b0 := h.symm
      _ = 2 ^ 8 * (b3 * 2 ^ 16 + b2 * 2 ^ 8 + b1) + b0 := by ring
  calc b3 <<< 24 ||| b2 <<< 16 ||| b1 <<< 8 ||| b0
      = (b3 * 2 ^ 24 + b2 * 2 ^ 16) ||| b1 <<< 8 ||| b0 := by rw [e1]
    _ = (b3 * 2 ^ 24 + b2 * 2 ^ 16 + b1 * 2 ^ 8) ||| b0 := by rw [e2]
    _ = b3 * 2 ^ 24 + b2 * 2 ^ 16 + b1 * 2 ^ 8 + b0 := e3

/-- C7: every multi-byte field of the decoded record is assembled
little-endian, lowest-addressed register as least significant byte: each
16-bit field equals `high * 256 + low`, the 32-bit fields `online_time` and
`full_time` equal the base-256 value of their four consecutive registers,
and concretely a capacity field with low byte `0x34` (register 19) and high
byte `0x12` (register 20) decodes to `0x1234 = 4660`. -/
theorem decode_little_endian (regs : Nat → Nat) (hb : ∀ i, regs i < 256) :
    (decode_ups regs).bat_voltage = regs 6 * 256 + regs 5 ∧
    (decode_ups regs).charge_typec = regs 8 * 256 + regs 7 ∧
    (decode_ups regs).charge_micro = regs 10 * 256 + regs 9 ∧
    (decode_ups regs).capacity_pct = regs 20 * 256 + regs 19 ∧
    (decode_ups regs).online_time
      = regs 31 * 2 ^ 24 + regs 30 * 2 ^ 16 + regs 29 * 2 ^ 8 + regs 28 ∧
    (decode_ups regs).full_time
      = regs 35 * 2 ^ 24 + regs 34 * 2 ^ 16 + regs 33 * 2 ^ 8 + regs 32 ∧
    (decode_ups (fun i => if i = 19 then 0x34 else if i = 20 then 0x12 else 0)).capacity_pct
      = 0x1234 := by
  refine ⟨?_, ?_, ?_, ?_, ?_, ?_, by decide⟩
  · rw [show (decode_ups regs).bat_voltage = regs 6 <<< 8 ||| regs 5 from rfl,
      two_byte_le _ _ (hb 5)]
  · rw [show (decode_ups regs).charge_typec = regs 8 <<< 8 ||| regs 7 from rfl,
      two_byte_le _ _ (hb 7)]
  · rw [show (decode_ups regs).charge_micro = regs 10 <<< 8 ||| regs 9 from rfl,
      two_byte_le _ _ (hb 9)]
  · rw [show (decode_ups regs).capacity_pct = regs 20 <<< 8 ||| regs 19 from rfl,
      two_byte_le _ _ (hb 19)]
  · rw [show (decode_ups regs).online_time
        = regs 31 <<< 24 ||| regs 30 <<< 16 ||| regs 29 <<< 8 ||| regs 28 from rfl,
      four_byte_le _ _ _ _ (hb 30) (hb 29) (hb 28)]
  · rw [show (decode_ups regs).full_time
        = regs 35 <<< 24 ||| regs 34 <<< 16 ||| regs 33 <<< 8 ||| regs 32 from rfl,
      four_byte_le _ _ _ _ (hb 34) (hb 33) (hb 32)]

theorem decode_little_endian_witness :
    (decode_ups (fun i => i % 256)).capacity_pct = 20 % 256 * 256 + 19 % 256 ∧
    (decode_ups (fun i => i % 256)).online_time
      = 31 % 256 * 2 ^ 24 + 30 % 256 * 2 ^ 16 + 29 % 256 * 2 ^ 8 + 28 % 256 :=
  ⟨(decode_little_endian (fun i => i % 256) (fun i => Nat.mod_lt i (by norm_num))).2.2.2.1,
    (decode_little_endian (fun i => i % 256) (fun i => Nat.mod_lt i (by norm_num))).2.2.2.2.1⟩

/-- C8: `format_time` renders a non-negative seconds count as seconds only
below 60, whole minutes below 3600, and hours with residual minutes
otherwise; in particular `format_time 45 = "45s"`, `format_time 90 = "1m"`,
`format_time 3661 = "1h 1m"` and `format_time 0 = "0s"`. -/
theorem format_time_spec :
    format_time 45 = "45s" ∧ format_time 90 = "1m" ∧
    format_time 3661 = "1h 1m" ∧ format_time 0 = "0s" ∧
    ∀ seconds : Nat,
      (seconds < 60 → format_time seconds = toString seconds ++ "s") ∧
      (60 ≤ seconds → seconds < 3600 →
        format_time seconds = toString (seconds / 60) ++ "m") ∧
      (3600 ≤ seconds →
        format_time seconds
          = toString (seconds / 3600) ++ "h " ++ toString (seconds % 3600 / 60) ++ "m") := by
  refine ⟨rfl, rfl, rfl, rfl, fun seconds => ⟨?_, ?_, ?_⟩⟩
  · intro h
    rw [format_time, if_pos h]
  · intro h1 h2
    rw [format_time, if_neg (by omega), if_pos h2]
  · intro h
    rw [format_time, if_neg (by omega), if_neg (by omega)]

theorem format_time_spec_witness :
    format_time 45 = toString 45 ++ "s" ∧
    format_time 90 = toString (90 / 60) ++ "m" ∧
    format_time 3661 = toString (3661 / 3600) ++ "h " ++ toString (3661 % 3600 / 60) ++ "m" :=
  ⟨(format_time_spec.2.2.2.2 45).1 (by decide),
    (format_time_spec.2.2.2.2 90).2.1 (by decide) (by decide),
    (format_time_spec.2.2.2.2 3661).2.2 (by decide)⟩

/-- C9: the rendering layer classifies a record as charging exactly when the
Type-C charging voltage exceeds 4000 mV or the micro-USB charging voltage
exceeds 4000 mV; a record with Type-C at 4500 mV and micro at 0 mV is
classified as charging (`render` draws "Charging"), and a record with both
at 0 mV is classified as on-battery (`render` draws "On Batt"). -/
theorem charging_classification :
    (∀ d : UpsData,
      is_charging d = true ↔ (4000 < d.charge_typec ∨ 4000 < d.charge_micro)) ∧
    is_charging typecRecord = true ∧
    is_charging idleRecord = false ∧
    render_status typecRecord = "Charging" ∧
    render_status idleRecord = "On Batt" := by
  refine ⟨?_, rfl, rfl, rfl, rfl⟩
  intro d
  simp [is_charging]

/-- C10: when the transaction fails, the globals `_ups_cache` and
`_ups_cache_time` are left exactly as they were (the `except` branch only
reads them), so the time-to-live is not refreshed: any later call at or
after the same instant still misses the cache and attempts the bus again. -/
theorem failed_read_preserves_cache (st : UpsState) (now nowLater : ℚ)
    (bus : Option (Nat → Nat))
    (hmiss : ¬(st.cache.isSome = true ∧ now - st.cacheTime < cacheValidity))
    (hle : now ≤ nowLater) :
    (read_ups_data true now none st).state = st ∧
    (read_ups_data true nowLater bus (read_ups_data true now none st).state).busAttempted
      = true := by
  rw [read_tx_fail st now hmiss]
  refine ⟨rfl, ?_⟩
  have hmiss2 : ¬(st.cache.isSome = true ∧ nowLater - st.cacheTime < cacheValidity) := by
    rintro ⟨hs, hlt⟩
    exact hmiss ⟨hs, lt_of_le_of_lt (by linarith) hlt⟩
  show (read_ups_data true nowLater bus st).busAttempted = true
  unfold read_ups_data
  rw [if_neg hmiss2, if_neg (by simp)]
  cases bus <;> rfl

theorem failed_read_preserves_cache_witness :
    (read_ups_data true 0 none initState).state = initState ∧
    (read_ups_data true 1 none (read_ups_data true 0 none initState).state).busAttempted
      = true :=
  failed_read_preserves_cache initState 0 1 none (by simp [initState]) (by norm_num)

end UpsBattery
